import Mathlib

/-!
Verification of the Turntable-IQ track-import reconciliation pipeline and of
the Rekordbox connection page of the frontend.

The frontend component (`RekordboxPage`) is embedded from the source file
directly.  The backend reconciler is not part of the available sources (only
its caller, the frontend, and the spec are), so the reconciler, the library
store and the connect/import endpoints are modelled from the specification.
-/

namespace TurntableIQ

/-- The data fields of a track as they travel through the import pipeline
(title, artist, album, duration, file location, optional genre label). -/
structure TrackData where
  title : String
  artist : String
  album : String
  duration : Nat
  location : String
  genre : Option String
  deriving DecidableEq, Repr

/-- Modelled from the spec: a Candidate Track Record as produced by the
External Source Adapter — the stable source-assigned identifier plus the
track's data fields; read-only, produced fresh on every import run. -/
structure Candidate where
  foreignId : String
  data : TrackData
  deriving DecidableEq, Repr

/-- Modelled from the spec: a Library Track Record — locally-assigned
identifier, all candidate fields, the foreign-source identifier used solely
for matching, and created-at/updated-at timestamps. -/
structure LibraryRecord where
  localId : Nat
  foreignId : String
  data : TrackData
  createdAt : Nat
  updatedAt : Nat
  deriving DecidableEq, Repr

/-- Modelled from the spec: the Library Store — the durable local collection
of Library Track Records, together with the counter from which fresh
locally-assigned identifiers are drawn. -/
structure Store where
  records : List LibraryRecord
  nextId : Nat
  deriving DecidableEq, Repr

/-- The empty Library Store. -/
def Store.empty : Store := ⟨[], 0⟩

/-- Modelled from the spec: `findByForeignId(id) -> Option<LibraryTrackRecord>`,
lookup of an existing record by its foreign-source identifier. -/
def findByForeignId (s : Store) (fid : String) : Option LibraryRecord :=
  s.records.find? (fun r => r.foreignId == fid)

/-- Modelled from the spec: `insert(record)` of the Library Store.  It assigns
the fresh local identifier and enforces the storage-layer constraints: the
foreign-source identifier must be non-empty (a candidate with an empty foreign
id is the spec's example of a malformed record whose write raises a constraint
violation) and unique (the de-duplication constraint of §5). -/
def Store.insertRec (s : Store) (fid : String) (d : TrackData) (now : Nat) :
    Except String Store :=
  if fid = "" then
    .error "constraint violation: empty foreign id"
  else if (findByForeignId s fid).isSome then
    .error "constraint violation: duplicate foreign id"
  else
    .ok ⟨s.records ++ [⟨s.nextId, fid, d, now, now⟩], s.nextId + 1⟩

/-- Modelled from the spec: `update(record)` of the Library Store — overwrite
the data fields of the record matching the foreign-source identifier and set
its updated-at timestamp to now, never touching the locally-assigned
identifier or the created-at timestamp. -/
def Store.updateRec (s : Store) (fid : String) (d : TrackData) (now : Nat) : Store :=
  ⟨s.records.map (fun r =>
      if r.foreignId == fid then { r with data := d, updatedAt := now } else r),
    s.nextId⟩

/-- Modelled from the spec: the Import Run Summary — counts of records seen,
newly inserted, updated, unchanged and failed, plus the first error recorded
per failed record.  Genuine no-op re-imports are counted separately in
`unchanged` (the strict-comparison policy of §4.2 step 3 / §9: a no-op
comparison must not inflate the `updated` counter). -/
structure ImportRunSummary where
  seen : Nat
  inserted : Nat
  updated : Nat
  unchanged : Nat
  failed : Nat
  errors : List (String × String)
  deriving DecidableEq, Repr

/-- The fresh summary a run starts from. -/
def emptySummary : ImportRunSummary := ⟨0, 0, 0, 0, 0, []⟩

/-- Modelled from the spec: processing of one candidate by the Reconciler
(§4.2 steps 1-4): look up by foreign id; insert a fresh record when none
exists; on a match, compare field-by-field and overwrite only when something
differs; any store failure is caught, recorded against the candidate and
counted in `failed`, and processing continues. -/
def importOne (s : Store) (sum : ImportRunSummary) (c : Candidate) (now : Nat) :
    Store × ImportRunSummary :=
  match findByForeignId s c.foreignId with
  | none =>
      match s.insertRec c.foreignId c.data now with
      | .ok s' =>
          (s', { sum with
                 seen := sum.seen + 1
                 inserted := sum.inserted + 1 })
      | .error e =>
          (s, { sum with
                seen := sum.seen + 1
                failed := sum.failed + 1
                errors := sum.errors ++ [(c.foreignId, e)] })
  | some r =>
      if r.data = c.data then
        (s, { sum with
              seen := sum.seen + 1
              unchanged := sum.unchanged + 1 })
      else
        (s.updateRec c.foreignId c.data now,
          { sum with
            seen := sum.seen + 1
            updated := sum.updated + 1 })

/-- Modelled from the spec: the reconciliation loop over a candidate list, in
input order, threading the store and the summary. -/
def importList (now : Nat) : Store → ImportRunSummary → List Candidate →
    Store × ImportRunSummary
  | s, sum, [] => (s, sum)
  | s, sum, c :: cs =>
      let p := importOne s sum c now
      importList now p.1 p.2 cs

/-- Modelled from the spec: `importAll(candidates) -> ImportRunSummary`, the
Reconciler's sole operation, returning the final store alongside the summary. -/
def importAll (s : Store) (cs : List Candidate) (now : Nat) :
    Store × ImportRunSummary :=
  importList now s emptySummary cs

/-- A well-formed Library Store: every stored record has a non-empty
foreign-source identifier, and no two records share one (the de-duplication
invariant). -/
def WellFormed (s : Store) : Prop :=
  (∀ r ∈ s.records, r.foreignId ≠ "") ∧ (s.records.map (·.foreignId)).Nodup

/-- The data fields currently stored under a foreign-source identifier. -/
def lookupData (s : Store) (fid : String) : Option TrackData :=
  (findByForeignId s fid).map (·.data)

/-- Modelled from the spec: a sequence of `importAll` runs, each with its own
candidate list and timestamp. -/
def runAll (s : Store) : List (List Candidate × Nat) → Store
  | [] => s
  | p :: rest => runAll (importAll s p.1 p.2).1 rest

/-- The data the last candidate of a batch carries for a given foreign-source
identifier, when the batch mentions it at all. -/
def lastData (cs : List Candidate) (f : String) : Option TrackData :=
  ((cs.filter (fun x => x.foreignId == f)).getLast?).map (fun x => x.data)

/-! ### The connect endpoint and the system state

The backend `/api/rekordbox/connect` and `/api/rekordbox/import` handlers are
not among the available sources; they are modelled from the spec (§6, §7, §9):
a global current-connection state shared between Connect and Import. -/

/-- One character of the credential as accepted by the frontend's
case-insensitive hexadecimal check `[0-9a-f]` with the `i` flag. -/
def isHexChar (c : Char) : Bool :=
  ('0' ≤ c && c ≤ '9') || ('a' ≤ c && c ≤ 'f') || ('A' ≤ c && c ≤ 'F')

/-- The frontend's credential format test, the JS regex
`^[0-9a-f]+$` with the `i` flag: at least one character, all hexadecimal. -/
def hexOk (s : String) : Bool :=
  s.length > 0 && s.toList.all isHexChar

/-- Modelled from the spec: the source environment — which external databases
exist, as a map from (location, credential) to the candidate sequence the
Adapter would yield, `none` when the source is unavailable or the credential
is wrong. -/
def SourceEnv : Type := String → String → Option (List Candidate)

/-- Modelled from the spec: the backend's Connect check (§6): reject a missing
location, reject a credential that is not exactly 64 hexadecimal characters,
then try to open the source, failing with a descriptive error when it is
unavailable. -/
def backendConnect (env : SourceEnv) (path key : String) :
    Except String (List Candidate) :=
  if path = "" then
    .error "missing or invalid database location"
  else if ¬ (key.length = 64 ∧ hexOk key = true) then
    .error "malformed credential: expected 64 hexadecimal characters"
  else
    match env path key with
    | none => .error "source unavailable: could not open the database"
    | some cands => .ok cands

/-- Modelled from the spec: the whole backend state — the Library Store plus
the global current-connection state (§9), the candidate sequence of the
currently connected source when one is connected. -/
structure SystemState where
  store : Store
  session : Option (List Candidate)
  deriving DecidableEq, Repr

/-- Modelled from the spec: the Connect operation over the system state — on
success record the connected source, on failure return the error and leave
everything untouched. -/
def sysConnect (env : SourceEnv) (st : SystemState) (path key : String) :
    Except String Unit × SystemState :=
  match backendConnect env path key with
  | .error e => (.error e, st)
  | .ok cands => (.ok (), { st with session := some cands })

/-- Modelled from the spec: the Import operation over the system state — fail
when no source is connected, otherwise run `importAll` on the connected
source's candidates and answer with `{count, added, updated}` mapped from the
summary as `count = seen`, `added = inserted`. -/
def sysImport (st : SystemState) (now : Nat) :
    Except String (Nat × Nat × Nat) × SystemState :=
  match st.session with
  | none => (.error "not connected yet", st)
  | some cands =>
      let p := importAll st.store cands now
      (.ok (p.2.seen, p.2.inserted, p.2.updated), { st with store := p.1 })

/-! ### The frontend `RekordboxPage` component -/

/-- The outcome of the client-side part of `handleConnect`: either an error
message is shown and no request leaves the page, or a POST to
`/api/rekordbox/connect` is issued with the given path and key. -/
inductive ConnectAction where
  | reject (message : String)
  | send (dbPath : String) (dbKey : String)
  deriving DecidableEq, Repr

/-- The validation and request-preparation logic of `handleConnect` in
`RekordboxPage`: an empty path is rejected; a key shorter than 64 characters
is rejected; a key that fails the case-insensitive hex regex is rejected; a
key longer than 64 characters is truncated to its first 64 characters
(`keyToSend`) and the request is sent. -/
def handleConnect (dbPath dbKey : String) : ConnectAction :=
  if dbPath = "" then
    .reject "Please provide the database path"
  else if dbKey.length ≠ 64 ∧ ¬ dbKey.length > 64 then
    .reject "Invalid database key format. Key should be 64 hex characters."
  else if ¬ hexOk dbKey then
    .reject "Invalid database key format. Key should be 64 hex characters."
  else
    .send dbPath (if dbKey.length > 64 then dbKey.take 64 else dbKey)

/-- The `importStatus` state of `RekordboxPage`. -/
structure ImportStatus where
  inProgress : Bool
  completed : Bool
  count : Nat
  added : Nat
  updated : Nat
  error : Option String
  deriving DecidableEq, Repr

/-- The shape the frontend expects from `/api/rekordbox/import`. -/
structure ImportResponse where
  count : Nat
  added : Nat
  updated : Nat
  deriving DecidableEq, Repr

/-- The success branch of `handleImportTracks`: the new `importStatus` is
built from exactly the `count`, `added` and `updated` fields of the
response. -/
def applyImportResponse (resp : ImportResponse) : ImportStatus :=
  ⟨false, true, resp.count, resp.added, resp.updated, none⟩

/-- The component state of `RekordboxPage` that drives the step machine:
`connected`, `importStatus.inProgress`, `importStatus.completed` and
`activeStep`. -/
structure UiState where
  connected : Bool
  importInProgress : Bool
  importCompleted : Bool
  activeStep : Nat
  deriving DecidableEq, Repr

/-- The initial component state: not connected, no import running. -/
def uiInit : UiState := ⟨false, false, false, 0⟩

/-- The events the page reacts to: the connect response arriving (successful
or not), the user clicking the Import Tracks button, and the import response
arriving. -/
inductive UiEvent where
  | connectResponse (success : Bool)
  | importClick
  | importResponse (ok : Bool)
  deriving DecidableEq, Repr

/-- One step of the page: a successful connect response sets `connected` and
advances to step 1; a failed one leaves the state (an error is displayed);
the Import button is clickable only when it is enabled
(`disabled={!connected || importStatus.inProgress}`), and clicking it starts
the import; the import response ends it, completing on success. -/
def uiStep (st : UiState) : UiEvent → Option UiState
  | .connectResponse true => some { st with connected := true, activeStep := 1 }
  | .connectResponse false => some st
  | .importClick =>
      if st.connected && !st.importInProgress then
        some { st with importInProgress := true }
      else
        none
  | .importResponse ok =>
      some { st with
             importInProgress := false
             importCompleted := ok
             activeStep := if ok then 2 else st.activeStep }

/-- Running the page over a list of events; `none` when an event occurs that
the page cannot produce (a click on a disabled button). -/
def uiRun (st : UiState) : List UiEvent → Option UiState
  | [] => some st
  | e :: es =>
      match uiStep st e with
      | none => none
      | some st' => uiRun st' es

/-! ### Concrete sample data used to exercise the definitions -/

/-- A sample track. -/
def d0 : TrackData := ⟨"One", "Artist", "Album", 300, "/music/one.mp3", none⟩

/-- A second sample track, differing from the first. -/
def d1 : TrackData := ⟨"Two", "Artist", "Album", 301, "/music/two.mp3", none⟩

/-- A source environment in which no external database exists. -/
def env0 : SourceEnv := fun _ _ => none

/-- The 64-character credential made of zeros, the spec's sample key. -/
def zeroKey : String := String.mk (List.replicate 64 '0')

/-- A 65-character all-hexadecimal credential. -/
def key65 : String := String.mk (List.replicate 65 '0')

/-! ### Store-level lemmas -/

/-- `lookupData` unfolded over an explicit store. -/
theorem lookupData_mk (rs : List LibraryRecord) (n : Nat) (f : String) :
    lookupData ⟨rs, n⟩ f =
      (rs.find? (fun r => r.foreignId == f)).map (fun r => r.data) := rfl

/-- `find?` over a one-element list. -/
theorem find?_singleton (p : LibraryRecord → Bool) (r : LibraryRecord) :
    [r].find? p = if p r then some r else none := by
  by_cases h : p r
  · rw [List.find?_cons_of_pos _ h, if_pos h]
  · rw [List.find?_cons_of_neg _ h, if_neg h]
    rfl

/-- Updating the fields stored under `fid` rewrites only the matching record,
seen through `findByForeignId`. -/
theorem findByForeignId_updateRec (s : Store) (fid : String) (d : TrackData)
    (now : Nat) (f : String) :
    findByForeignId (s.updateRec fid d now) f =
      (findByForeignId s f).map
        (fun r => if r.foreignId == fid then
            { r with data := d, updatedAt := now } else r) := by
  have hpred : ((fun r : LibraryRecord => r.foreignId == f) ∘ fun r =>
      if r.foreignId == fid then { r with data := d, updatedAt := now } else r) =
      fun r : LibraryRecord => r.foreignId == f := by
    funext r
    by_cases h : r.foreignId == fid <;> simp [Function.comp, h]
  unfold findByForeignId Store.updateRec
  rw [List.find?_map, hpred]

/-- The insert branch of `importOne`: no record matches and the foreign id
passes the constraints, so the fresh record is appended and `inserted`
counted. -/
theorem importOne_eq_insert (s : Store) (sum : ImportRunSummary)
    (c : Candidate) (now : Nat)
    (hfind : findByForeignId s c.foreignId = none) (hv : c.foreignId ≠ "") :
    importOne s sum c now =
      (⟨s.records ++ [⟨s.nextId, c.foreignId, c.data, now, now⟩], s.nextId + 1⟩,
        { sum with
          seen := sum.seen + 1
          inserted := sum.inserted + 1 }) := by
  unfold importOne Store.insertRec
  rw [hfind, if_neg hv]
  rfl

/-- The failure branch of `importOne`: an empty foreign id with no matching
record raises the store's constraint violation, which is caught and counted
in `failed` with the store untouched. -/
theorem importOne_eq_fail (s : Store) (sum : ImportRunSummary)
    (c : Candidate) (now : Nat)
    (hfind : findByForeignId s c.foreignId = none) (hv : c.foreignId = "") :
    importOne s sum c now =
      (s, { sum with
            seen := sum.seen + 1
            failed := sum.failed + 1
            errors := sum.errors ++
              [(c.foreignId, "constraint violation: empty foreign id")] }) := by
  unfold importOne Store.insertRec
  rw [hfind, if_pos hv]

/-- The no-op branch of `importOne`: a record matches and nothing differs, so
nothing is written and `unchanged` is counted. -/
theorem importOne_eq_noop (s : Store) (sum : ImportRunSummary)
    (c : Candidate) (now : Nat) (r : LibraryRecord)
    (hfind : findByForeignId s c.foreignId = some r) (hd : r.data = c.data) :
    importOne s sum c now =
      (s, { sum with
            seen := sum.seen + 1
            unchanged := sum.unchanged + 1 }) := by
  unfold importOne
  rw [hfind]
  exact if_pos hd

/-- The update branch of `importOne`: a record matches and some field differs,
so the data fields are overwritten and `updated` counted. -/
theorem importOne_eq_update (s : Store) (sum : ImportRunSummary)
    (c : Candidate) (now : Nat) (r : LibraryRecord)
    (hfind : findByForeignId s c.foreignId = some r) (hd : r.data ≠ c.data) :
    importOne s sum c now =
      (s.updateRec c.foreignId c.data now,
        { sum with
          seen := sum.seen + 1
          updated := sum.updated + 1 }) := by
  unfold importOne
  rw [hfind]
  exact if_neg hd

/-- How one reconciliation step changes the data stored under a non-empty
foreign-source identifier: the candidate's data when the identifiers agree,
the previous answer otherwise. -/
theorem lookupData_importOne (s : Store) (sum : ImportRunSummary)
    (c : Candidate) (now : Nat) (f : String) (hf : f ≠ "") :
    lookupData (importOne s sum c now).1 f =
      if c.foreignId = f then some c.data else lookupData s f := by
  rcases hfind : findByForeignId s c.foreignId with _ | r
  · by_cases hempty : c.foreignId = ""
    · rw [importOne_eq_fail s sum c now hfind hempty]
      have h1 : c.foreignId ≠ f := by rw [hempty]; exact Ne.symm hf
      rw [if_neg h1]
    · rw [importOne_eq_insert s sum c now hfind hempty]
      have hfind' : s.records.find? (fun r => r.foreignId == c.foreignId) = none := hfind
      rw [lookupData_mk, List.find?_append, find?_singleton]
      by_cases hcf : c.foreignId = f
      · subst hcf
        rw [hfind']
        simp
      · have hne : (((⟨s.nextId, c.foreignId, c.data, now, now⟩ :
            LibraryRecord).foreignId == f)) = false := by
          simpa using hcf
        rw [hne, if_neg (by simp), if_neg hcf]
        simp [lookupData, findByForeignId]
  · have hr : r.foreignId = c.foreignId := by
      simpa using List.find?_some hfind
    by_cases hdata : r.data = c.data
    · rw [importOne_eq_noop s sum c now r hfind hdata]
      by_cases hcf : c.foreignId = f
      · subst hcf
        rw [if_pos rfl]
        unfold lookupData
        rw [hfind]
        simp [hdata]
      · rw [if_neg hcf]
    · rw [importOne_eq_update s sum c now r hfind hdata]
      unfold lookupData
      rw [findByForeignId_updateRec]
      by_cases hcf : c.foreignId = f
      · subst hcf
        rw [hfind]
        simp [hr]
      · rcases hfind2 : findByForeignId s f with _ | r2
        · simp [hcf]
        · have hr2 : r2.foreignId = f := by
            simpa using List.find?_some hfind2
          have hne : r2.foreignId ≠ c.foreignId := by
            rw [hr2]
            exact Ne.symm hcf
          simp [hne, hcf]

/-- The last element of a list, through `getLast?`, is a member. -/
theorem mem_of_getLast?_eq_some {α : Type} {l : List α} {a : α}
    (h : l.getLast? = some a) : a ∈ l := by
  obtain ⟨hne, rfl⟩ := List.mem_getLast?_eq_getLast (Option.mem_def.mpr h)
  exact List.getLast_mem hne

/-- A well-formed store holds no record under the empty foreign id. -/
theorem findByForeignId_empty_of_wf (s : Store) (h : WellFormed s) :
    findByForeignId s "" = none := by
  unfold findByForeignId
  rw [List.find?_eq_none]
  intro r hr
  simpa using h.1 r hr

/-- One reconciliation step preserves well-formedness of the store. -/
theorem wellFormed_importOne (s : Store) (sum : ImportRunSummary)
    (c : Candidate) (now : Nat) (h : WellFormed s) :
    WellFormed (importOne s sum c now).1 := by
  rcases hfind : findByForeignId s c.foreignId with _ | r
  · by_cases hempty : c.foreignId = ""
    · rw [importOne_eq_fail s sum c now hfind hempty]
      exact h
    · rw [importOne_eq_insert s sum c now hfind hempty]
      obtain ⟨h1, h2⟩ := h
      refine ⟨?_, ?_⟩
      · intro r hr
        rcases List.mem_append.mp hr with hmem | hmem
        · exact h1 r hmem
        · have hr' : r = ⟨s.nextId, c.foreignId, c.data, now, now⟩ := by
            simpa using hmem
          rw [hr']
          exact hempty
      · show ((s.records ++ [(⟨s.nextId, c.foreignId, c.data, now, now⟩ :
            LibraryRecord)]).map (fun r : LibraryRecord => r.foreignId)).Nodup
        rw [List.map_append, List.nodup_append]
        refine ⟨h2, List.nodup_singleton _, fun a ha hb => ?_⟩
        have hac : a = c.foreignId := by simpa using hb
        obtain ⟨r0, hr0, hr0e⟩ := List.mem_map.mp ha
        have hno := List.find?_eq_none.mp hfind r0 hr0
        apply hno
        simp [hr0e, hac]
  · by_cases hdata : r.data = c.data
    · rw [importOne_eq_noop s sum c now r hfind hdata]
      exact h
    · rw [importOne_eq_update s sum c now r hfind hdata]
      unfold Store.updateRec
      obtain ⟨h1, h2⟩ := h
      have hg : ∀ r0 : LibraryRecord,
          ((if r0.foreignId == c.foreignId then
            { r0 with data := c.data, updatedAt := now } else r0) :
              LibraryRecord).foreignId = r0.foreignId := by
        intro r0
        by_cases hb : r0.foreignId == c.foreignId <;> simp [hb]
      refine ⟨?_, ?_⟩
      · intro x hx
        obtain ⟨r0, hr0, hre⟩ := List.mem_map.mp hx
        rw [← hre, hg r0]
        exact h1 r0 hr0
      · show ((s.records.map (fun r : LibraryRecord =>
            if r.foreignId == c.foreignId then
              { r with data := c.data, updatedAt := now } else r)).map
            (fun r : LibraryRecord => r.foreignId)).Nodup
        rw [List.map_map]
        have heq : ((fun r : LibraryRecord => r.foreignId) ∘ fun r =>
            if r.foreignId == c.foreignId then
              { r with data := c.data, updatedAt := now } else r) =
            fun r : LibraryRecord => r.foreignId := funext hg
        rw [heq]
        exact h2

/-- A record that was in the store before a reconciliation step is still
there after it, with the same locally-assigned identifier, foreign-source
identifier and created-at timestamp. -/
theorem keeps_importOne (s : Store) (sum : ImportRunSummary)
    (c : Candidate) (now : Nat) (r : LibraryRecord) (hr : r ∈ s.records) :
    ∃ r' ∈ (importOne s sum c now).1.records,
      r'.localId = r.localId ∧ r'.foreignId = r.foreignId ∧
        r'.createdAt = r.createdAt := by
  rcases hfind : findByForeignId s c.foreignId with _ | r₁
  · by_cases hempty : c.foreignId = ""
    · rw [importOne_eq_fail s sum c now hfind hempty]
      exact ⟨r, hr, rfl, rfl, rfl⟩
    · rw [importOne_eq_insert s sum c now hfind hempty]
      exact ⟨r, List.mem_append_left _ hr, rfl, rfl, rfl⟩
  · by_cases hdata : r₁.data = c.data
    · rw [importOne_eq_noop s sum c now r₁ hfind hdata]
      exact ⟨r, hr, rfl, rfl, rfl⟩
    · rw [importOne_eq_update s sum c now r₁ hfind hdata]
      refine ⟨if r.foreignId == c.foreignId then
          { r with data := c.data, updatedAt := now } else r,
        List.mem_map.mpr ⟨r, hr, rfl⟩, ?_⟩
      by_cases hb : r.foreignId == c.foreignId <;> simp [hb]

/-- Unfolding one step of the reconciliation loop. -/
theorem importList_cons (now : Nat) (s : Store) (sum : ImportRunSummary)
    (c : Candidate) (cs : List Candidate) :
    importList now s sum (c :: cs) =
      importList now (importOne s sum c now).1 (importOne s sum c now).2 cs := rfl

/-- Every branch of `importOne` counts the candidate as seen. -/
theorem seen_importOne (s : Store) (sum : ImportRunSummary)
    (c : Candidate) (now : Nat) :
    (importOne s sum c now).2.seen = sum.seen + 1 := by
  rcases hfind : findByForeignId s c.foreignId with _ | r
  · by_cases hempty : c.foreignId = ""
    · rw [importOne_eq_fail s sum c now hfind hempty]
    · rw [importOne_eq_insert s sum c now hfind hempty]
  · by_cases hdata : r.data = c.data
    · rw [importOne_eq_noop s sum c now r hfind hdata]
    · rw [importOne_eq_update s sum c now r hfind hdata]

/-- Every branch of `importOne` increments exactly one of the four outcome
counters. -/
theorem counts_importOne (s : Store) (sum : ImportRunSummary)
    (c : Candidate) (now : Nat) :
    (importOne s sum c now).2.inserted + (importOne s sum c now).2.updated +
        (importOne s sum c now).2.unchanged + (importOne s sum c now).2.failed =
      sum.inserted + sum.updated + sum.unchanged + sum.failed + 1 := by
  rcases hfind : findByForeignId s c.foreignId with _ | r
  · by_cases hempty : c.foreignId = ""
    · rw [importOne_eq_fail s sum c now hfind hempty]
      dsimp only
      omega
    · rw [importOne_eq_insert s sum c now hfind hempty]
      dsimp only
      omega
  · by_cases hdata : r.data = c.data
    · rw [importOne_eq_noop s sum c now r hfind hdata]
      dsimp only
      omega
    · rw [importOne_eq_update s sum c now r hfind hdata]
      dsimp only
      omega

/-- The reconciliation loop counts every candidate as seen. -/
theorem seen_importList (now : Nat) (cs : List Candidate) :
    ∀ (s : Store) (sum : ImportRunSummary),
      (importList now s sum cs).2.seen = sum.seen + cs.length := by
  induction cs with
  | nil => intro s sum; rfl
  | cons c cs ih =>
      intro s sum
      rw [importList_cons, ih, seen_importOne, List.length_cons]
      omega

/-- The reconciliation loop adds one to the outcome counters per candidate. -/
theorem counts_importList (now : Nat) (cs : List Candidate) :
    ∀ (s : Store) (sum : ImportRunSummary),
      (importList now s sum cs).2.inserted + (importList now s sum cs).2.updated +
          (importList now s sum cs).2.unchanged + (importList now s sum cs).2.failed =
        sum.inserted + sum.updated + sum.unchanged + sum.failed + cs.length := by
  induction cs with
  | nil => intro s sum; rfl
  | cons c cs ih =>
      intro s sum
      rw [importList_cons, ih, counts_importOne, List.length_cons]
      omega

/-- The last-in-batch-wins characterization of a whole run: after the loop,
the data stored under a non-empty foreign-source identifier is the data of
the last candidate of the batch carrying it, or the previous store's answer
when the batch does not mention it. -/
theorem lookupData_importList (now : Nat) (cs : List Candidate) (f : String)
    (hf : f ≠ "") :
    ∀ (s : Store) (sum : ImportRunSummary),
      lookupData (importList now s sum cs).1 f =
        (lastData cs f).or (lookupData s f) := by
  induction cs with
  | nil => intro s sum; rfl
  | cons c cs ih =>
      intro s sum
      rw [importList_cons, ih, lookupData_importOne s sum c now f hf]
      by_cases hcf : c.foreignId = f
      · rw [if_pos hcf]
        unfold lastData
        rw [List.filter_cons, if_pos (by simpa using hcf)]
        have hsplit : (c :: cs.filter (fun x => x.foreignId == f)) =
            [c] ++ cs.filter (fun x => x.foreignId == f) := rfl
        rw [hsplit, List.getLast?_append]
        rcases hA : (cs.filter (fun x => x.foreignId == f)).getLast? with _ | x <;>
          rw [hA] <;> rfl
      · rw [if_neg hcf]
        unfold lastData
        rw [List.filter_cons, if_neg (by simpa using hcf)]

/-- A foreign-source identifier with a record keeps having one through a
run. -/
theorem isSome_lookupData_importList (now : Nat) (cs : List Candidate)
    (f : String) (hf : f ≠ "") (s : Store) (sum : ImportRunSummary)
    (h : (lookupData s f).isSome = true) :
    (lookupData (importList now s sum cs).1 f).isSome = true := by
  rw [lookupData_importList now cs f hf]
  rcases hA : lastData cs f with _ | d
  · simpa using h
  · rfl

/-- A batch candidate with a non-empty foreign-source identifier has a record
under that identifier after the run. -/
theorem isSome_lookupData_of_mem (now : Nat) (cs : List Candidate)
    (c : Candidate) (hc : c ∈ cs) (hf : c.foreignId ≠ "")
    (s : Store) (sum : ImportRunSummary) :
    (lookupData (importList now s sum cs).1 c.foreignId).isSome = true := by
  rw [lookupData_importList now cs c.foreignId hf]
  have hmem : c ∈ cs.filter (fun x => x.foreignId == c.foreignId) :=
    List.mem_filter.mpr ⟨hc, by simp⟩
  rcases hA : (cs.filter (fun x => x.foreignId == c.foreignId)).getLast? with _ | x
  · rw [List.getLast?_eq_none_iff] at hA
    rw [hA] at hmem
    cases hmem
  · have hlast : lastData cs c.foreignId = some x.data := by
      unfold lastData
      rw [hA]
      rfl
    rw [hlast]
    rfl

/-- The reconciliation loop preserves well-formedness of the store. -/
theorem wellFormed_importList (now : Nat) (cs : List Candidate) :
    ∀ (s : Store) (sum : ImportRunSummary), WellFormed s →
      WellFormed (importList now s sum cs).1 := by
  induction cs with
  | nil => intro s sum h; exact h
  | cons c cs ih =>
      intro s sum h
      rw [importList_cons]
      exact ih _ _ (wellFormed_importOne s sum c now h)

/-- No record is ever removed by a run, and neither its locally-assigned
identifier nor its created-at timestamp changes. -/
theorem keeps_importList (now : Nat) (cs : List Candidate) :
    ∀ (s : Store) (sum : ImportRunSummary) (r : LibraryRecord),
      r ∈ s.records →
      ∃ r' ∈ (importList now s sum cs).1.records,
        r'.localId = r.localId ∧ r'.foreignId = r.foreignId ∧
          r'.createdAt = r.createdAt := by
  induction cs with
  | nil => intro s sum r hr; exact ⟨r, hr, rfl, rfl, rfl⟩
  | cons c cs ih =>
      intro s sum r hr
      rw [importList_cons]
      obtain ⟨r₁, hr₁, h1, h2, h3⟩ := keeps_importOne s sum c now r hr
      obtain ⟨r₂, hr₂, g1, g2, g3⟩ := ih _ (importOne s sum c now).2 r₁ hr₁
      exact ⟨r₂, hr₂, by rw [g1, h1], by rw [g2, h2], by rw [g3, h3]⟩

/-- Over a well-formed store, the failures of a run are exactly the
candidates with an empty foreign-source identifier. -/
theorem failed_importList (now : Nat) (cs : List Candidate) :
    ∀ (s : Store) (sum : ImportRunSummary), WellFormed s →
      (importList now s sum cs).2.failed =
        sum.failed + cs.countP (fun x => x.foreignId == "") := by
  induction cs with
  | nil => intro s sum _; rfl
  | cons c cs ih =>
      intro s sum hwf
      rw [importList_cons, ih _ _ (wellFormed_importOne s sum c now hwf),
        List.countP_cons]
      by_cases hempty : c.foreignId = ""
      · have hfind : findByForeignId s c.foreignId = none := by
          rw [hempty]
          exact findByForeignId_empty_of_wf s hwf
        rw [importOne_eq_fail s sum c now hfind hempty]
        have hp : (c.foreignId == "") = true := by simpa using hempty
        rw [hp]
        simp
        omega
      · have hfail : (importOne s sum c now).2.failed = sum.failed := by
          rcases hfind : findByForeignId s c.foreignId with _ | r
          · rw [importOne_eq_insert s sum c now hfind hempty]
          · by_cases hdata : r.data = c.data
            · rw [importOne_eq_noop s sum c now r hfind hdata]
            · rw [importOne_eq_update s sum c now r hfind hdata]
        have hp : (c.foreignId == "") = false := by simpa using hempty
        rw [hfail, hp]
        simp

/-- A run over a store that already has a record for every valid candidate of
the batch inserts nothing. -/
theorem inserted_importList (now : Nat) (cs : List Candidate) :
    ∀ (s : Store) (sum : ImportRunSummary),
      (∀ c ∈ cs, c.foreignId ≠ "" → (lookupData s c.foreignId).isSome = true) →
      (importList now s sum cs).2.inserted = sum.inserted := by
  induction cs with
  | nil => intro s sum _; rfl
  | cons c cs ih =>
      intro s sum h
      rw [importList_cons]
      have hstep : (importOne s sum c now).2.inserted = sum.inserted := by
        rcases hfind : findByForeignId s c.foreignId with _ | r
        · have hempty : c.foreignId = "" := by
            by_contra hne
            have := h c (List.mem_cons_self c cs) hne
            unfold lookupData at this
            rw [hfind] at this
            cases this
          rw [importOne_eq_fail s sum c now hfind hempty]
        · by_cases hdata : r.data = c.data
          · rw [importOne_eq_noop s sum c now r hfind hdata]
          · rw [importOne_eq_update s sum c now r hfind hdata]
      have hnext : ∀ c' ∈ cs, c'.foreignId ≠ "" →
          (lookupData (importOne s sum c now).1 c'.foreignId).isSome = true := by
        intro c' hc' hne
        rw [lookupData_importOne s sum c now c'.foreignId hne]
        by_cases hcf : c.foreignId = c'.foreignId
        · rw [if_pos hcf]
          rfl
        · rw [if_neg hcf]
          exact h c' (List.mem_cons_of_mem c hc') hne
      rw [ih _ _ hnext, hstep]

/-- A run every candidate of which is either malformed or already stored with
identical data leaves the store untouched. -/
theorem importList_noop (now : Nat) (cs : List Candidate) :
    ∀ (sum : ImportRunSummary) (s : Store), WellFormed s →
      (∀ c ∈ cs, c.foreignId ≠ "" → lookupData s c.foreignId = some c.data) →
      (importList now s sum cs).1 = s := by
  induction cs with
  | nil => intro sum s _ _; rfl
  | cons c cs ih =>
      intro sum s hwf h
      rw [importList_cons]
      have hstep : (importOne s sum c now).1 = s := by
        by_cases hempty : c.foreignId = ""
        · have hfind : findByForeignId s c.foreignId = none := by
            rw [hempty]
            exact findByForeignId_empty_of_wf s hwf
          rw [importOne_eq_fail s sum c now hfind hempty]
        · have hl := h c (List.mem_cons_self c cs) hempty
          rcases hfind : findByForeignId s c.foreignId with _ | r
          · unfold lookupData at hl
            rw [hfind] at hl
            cases hl
          · have hdr : r.data = c.data := by
              unfold lookupData at hl
              rw [hfind] at hl
              simpa using hl
            rw [importOne_eq_noop s sum c now r hfind hdr]
      rw [hstep]
      exact ih _ s hwf (fun c' hc' => h c' (List.mem_cons_of_mem c hc'))

/-- A list whose image under a key function has no duplicates has at most one
element with any given key. -/
theorem length_filter_key_le_one {α : Type} (g : α → String) (l : List α)
    (hn : (l.map g).Nodup) (v : String) :
    (l.filter (fun a => g a == v)).length ≤ 1 := by
  induction l with
  | nil => simp
  | cons a l ih =>
      rw [List.map_cons, List.nodup_cons] at hn
      rw [List.filter_cons]
      by_cases hb : (g a == v) = true
      · rw [if_pos hb]
        have hv : g a = v := by simpa using hb
        have hnil : l.filter (fun a => g a == v) = [] := by
          rw [List.filter_eq_nil_iff]
          intro x hx hgx
          apply hn.1
          have hxv : g x = v := by simpa using hgx
          exact List.mem_map.mpr ⟨x, hx, by rw [hxv, hv]⟩
        rw [hnil]
        simp
      · rw [if_neg hb]
        exact ih hn.2

/-- In a list with duplicate-free keys, `find?` at the key of a member finds
that member. -/
theorem find?_key_of_mem {α : Type} (g : α → String) (l : List α)
    (hn : (l.map g).Nodup) (a : α) (ha : a ∈ l) :
    l.find? (fun x => g x == g a) = some a := by
  induction l with
  | nil => cases ha
  | cons b l ih =>
      rw [List.map_cons, List.nodup_cons] at hn
      rcases List.mem_cons.mp ha with rfl | ha'
      · exact @List.find?_cons_of_pos _ (fun x => g x == g a) a l (by simp)
      · have hga : g a ∈ l.map g := List.mem_map.mpr ⟨a, ha', rfl⟩
        have hne : ¬ ((fun x => g x == g a) b = true) := by
          simp only [beq_iff_eq]
          intro he
          rw [he] at hn
          exact hn.1 hga
        exact (@List.find?_cons_of_neg _ (fun x => g x == g a) b l hne).trans
          (ih hn.2 ha')

/-- A member of a well-formed store is exactly what lookup at its foreign id
returns. -/
theorem findByForeignId_of_mem_wf (s : Store) (hwf : WellFormed s)
    (r : LibraryRecord) (hr : r ∈ s.records) :
    findByForeignId s r.foreignId = some r := by
  have h := find?_key_of_mem (fun x : LibraryRecord => x.foreignId)
    s.records hwf.2 r hr
  exact h

/-- A stored foreign id yields a member record. -/
theorem exists_of_lookupData_isSome (s : Store) (f : String)
    (h : (lookupData s f).isSome = true) :
    ∃ r ∈ s.records, (r.foreignId == f) = true := by
  rcases hfind : findByForeignId s f with _ | r
  · unfold lookupData at h
    rw [hfind] at h
    cases h
  · have hfind' : s.records.find? (fun x => x.foreignId == f) = some r := hfind
    have hp := List.find?_some hfind'
    exact ⟨r, List.mem_of_find?_eq_some hfind', hp⟩

/-- A whole sequence of runs preserves well-formedness. -/
theorem wellFormed_runAll (rs : List (List Candidate × Nat)) :
    ∀ s : Store, WellFormed s → WellFormed (runAll s rs) := by
  induction rs with
  | nil => intro s h; exact h
  | cons p rest ih =>
      intro s h
      exact ih _ (wellFormed_importList p.2 p.1 s emptySummary h)

/-- A stored foreign id stays stored through a whole sequence of runs. -/
theorem isSome_lookupData_runAll (rs : List (List Candidate × Nat))
    (f : String) (hf : f ≠ "") :
    ∀ s : Store, (lookupData s f).isSome = true →
      (lookupData (runAll s rs) f).isSome = true := by
  induction rs with
  | nil => intro s h; exact h
  | cons p rest ih =>
      intro s h
      exact ih _ (isSome_lookupData_importList p.2 p.1 f hf s emptySummary h)

/-- A valid candidate of any run of a sequence has a record at the end of the
sequence. -/
theorem isSome_lookupData_runAll_of_mem (rs : List (List Candidate × Nat))
    (p : List Candidate × Nat) (hp : p ∈ rs) (c : Candidate) (hc : c ∈ p.1)
    (hf : c.foreignId ≠ "") :
    ∀ s : Store, (lookupData (runAll s rs) c.foreignId).isSome = true := by
  induction rs with
  | nil => cases hp
  | cons q rest ih =>
      intro s
      rcases List.mem_cons.mp hp with rfl | hp'
      · exact isSome_lookupData_runAll rest c.foreignId hf _
          (isSome_lookupData_of_mem p.2 p.1 c hc hf s emptySummary)
      · exact ih hp' _

/-- Every error the modelled Connect check can produce carries a non-empty
human-readable message. -/
theorem backendConnect_error_ne (env : SourceEnv) (path key e : String)
    (h : backendConnect env path key = .error e) : e ≠ "" := by
  unfold backendConnect at h
  by_cases h1 : path = ""
  · rw [if_pos h1] at h
    injection h with h'
    rw [← h']
    decide
  · rw [if_neg h1] at h
    by_cases h2 : key.length = 64 ∧ hexOk key = true
    · rw [if_neg (by simpa using h2)] at h
      rcases henv : env path key with _ | cands
      · rw [henv] at h
        injection h with h'
        rw [← h']
        decide
      · rw [henv] at h
        cases h
    · rw [if_pos (by simpa using h2)] at h
      injection h with h'
      rw [← h']
      decide

/-- Unfolding one step of the page's event loop. -/
theorem uiRun_cons (st : UiState) (e : UiEvent) (es : List UiEvent) :
    uiRun st (e :: es) = (uiStep st e).bind (fun st' => uiRun st' es) := by
  rcases h : uiStep st e with _ | st' <;> simp [uiRun, h]

/-- The page's event loop over a concatenation of traces. -/
theorem uiRun_append (evs₁ evs₂ : List UiEvent) :
    ∀ st : UiState, uiRun st (evs₁ ++ evs₂) =
      (uiRun st evs₁).bind (fun st' => uiRun st' evs₂) := by
  induction evs₁ with
  | nil => intro st; rfl
  | cons e es ih =>
      intro st
      rw [List.cons_append, uiRun_cons, uiRun_cons]
      rcases h : uiStep st e with _ | st' <;> simp [ih]

/-- One page event turns `connected` on only when it is the successful
connect response. -/
theorem uiStep_connected (st st' : UiState) (e : UiEvent)
    (h : uiStep st e = some st') (hc : st'.connected = true) :
    st.connected = true ∨ e = UiEvent.connectResponse true := by
  rcases e with success | _ | ok
  · rcases success with _ | _
    · left
      have h' : st = st' := by simpa [uiStep] using h
      rw [h']
      exact hc
    · right
      rfl
  · left
    by_cases hg : (st.connected && !st.importInProgress) = true
    · have h' : ({ st with importInProgress := true } : UiState) = st' := by
        simpa [uiStep, hg] using h
      rw [← h'] at hc
      exact hc
    · rw [show uiStep st UiEvent.importClick =
          (if (st.connected && !st.importInProgress) = true then
            some { st with importInProgress := true } else none) from rfl,
        if_neg hg] at h
      cases h
  · left
    have h' : ({ st with
        importInProgress := false
        importCompleted := ok
        activeStep := if ok then 2 else st.activeStep } : UiState) = st' := by
      simpa [uiStep] using h
    rw [← h'] at hc
    exact hc

/-- Along any valid trace, a state with `connected` on is reachable only
after a successful connect response (or from an already-connected start). -/
theorem connected_of_uiRun (evs : List UiEvent) :
    ∀ st st' : UiState, uiRun st evs = some st' → st'.connected = true →
      st.connected = true ∨ UiEvent.connectResponse true ∈ evs := by
  induction evs with
  | nil =>
      intro st st' h hc
      left
      have h' : st = st' := by simpa [uiRun] using h
      rw [h']
      exact hc
  | cons e es ih =>
      intro st st' h hc
      rw [uiRun_cons] at h
      rcases hs : uiStep st e with _ | st₁
      · rw [hs] at h
        cases h
      · rw [hs] at h
        have h' : uiRun st₁ es = some st' := by simpa using h
        rcases ih st₁ st' h' hc with h1 | h1
        · rcases uiStep_connected st st₁ e hs h1 with h2 | h2
          · exact Or.inl h2
          · exact Or.inr (by rw [h2]; exact List.mem_cons_self _ _)
        · exact Or.inr (List.mem_cons_of_mem e h1)

/-! ### The claims -/

/-- C1: a failure while processing a single candidate (the constraint
violation raised for an empty foreign id) is caught and recorded against that
candidate, increments `failed`, and processing continues: for a batch with
exactly one malformed candidate over a well-formed store, every candidate is
seen, `failed = 1`, and every valid candidate ends up stored — no single bad
record aborts the run. -/
theorem importAll_isolates_failures (s : Store) (cs : List Candidate)
    (now : Nat) (hwf : WellFormed s)
    (hone : cs.countP (fun x => x.foreignId == "") = 1) :
    (importAll s cs now).2.seen = cs.length ∧
    (importAll s cs now).2.failed = 1 ∧
    ∀ c ∈ cs, c.foreignId ≠ "" →
      (lookupData (importAll s cs now).1 c.foreignId).isSome = true := by
  refine ⟨?_, ?_, ?_⟩
  · have h := seen_importList now cs s emptySummary
    simpa [importAll, emptySummary] using h
  · have h := failed_importList now cs s emptySummary hwf
    rw [hone] at h
    simpa [importAll, emptySummary] using h
  · intro c hc hne
    exact isSome_lookupData_of_mem now cs c hc hne s emptySummary

/-- C1 witness: a two-candidate batch whose first candidate is malformed. -/
theorem importAll_isolates_failures_witness :
    (importAll Store.empty [⟨"", d0⟩, ⟨"a", d0⟩] 0).2.seen = 2 ∧
    (importAll Store.empty [⟨"", d0⟩, ⟨"a", d0⟩] 0).2.failed = 1 ∧
    (lookupData (importAll Store.empty [⟨"", d0⟩, ⟨"a", d0⟩] 0).1 "a").isSome
      = true := by
  have h := importAll_isolates_failures Store.empty [⟨"", d0⟩, ⟨"a", d0⟩] 0
    ⟨by decide, by decide⟩ (by decide)
  exact ⟨h.1, h.2.1, h.2.2 ⟨"a", d0⟩ (by decide) (by decide)⟩

/-- C2: across any sequence of `importAll` runs over a well-formed store, at
most one Library Track Record exists per foreign-source identifier, and
exactly one exists for the identifier of any valid candidate of any run —
the de-duplication invariant is preserved by the whole import path. -/
theorem runAll_dedup_invariant (s : Store) (rs : List (List Candidate × Nat))
    (hwf : WellFormed s) :
    (∀ f : String,
      ((runAll s rs).records.filter (fun r => r.foreignId == f)).length ≤ 1) ∧
    (∀ p ∈ rs, ∀ c ∈ p.1, c.foreignId ≠ "" →
      ((runAll s rs).records.filter
        (fun r => r.foreignId == c.foreignId)).length = 1) := by
  have hwf' := wellFormed_runAll rs s hwf
  have hle : ∀ f : String,
      ((runAll s rs).records.filter (fun r => r.foreignId == f)).length ≤ 1 := by
    intro f
    have h := length_filter_key_le_one (fun r : LibraryRecord => r.foreignId)
      (runAll s rs).records hwf'.2 f
    exact h
  refine ⟨hle, ?_⟩
  intro p hp c hc hf
  have hsome := isSome_lookupData_runAll_of_mem rs p hp c hc hf s
  obtain ⟨r, hr, hbeq⟩ := exists_of_lookupData_isSome _ _ hsome
  have hmem : r ∈ (runAll s rs).records.filter
      (fun x => x.foreignId == c.foreignId) :=
    List.mem_filter.mpr ⟨hr, hbeq⟩
  have hge : 1 ≤ ((runAll s rs).records.filter
      (fun x => x.foreignId == c.foreignId)).length :=
    List.length_pos.mpr (List.ne_nil_of_mem hmem)
  have hle' := hle c.foreignId
  omega

/-- C2 witness: the same foreign id imported by two successive runs leaves
exactly one record. -/
theorem runAll_dedup_invariant_witness :
    ((runAll Store.empty [([⟨"a", d0⟩], 0), ([⟨"a", d1⟩], 1)]).records.filter
      (fun r => r.foreignId == "a")).length = 1 := by
  have h := runAll_dedup_invariant Store.empty
    [([⟨"a", d0⟩], 0), ([⟨"a", d1⟩], 1)] ⟨by decide, by decide⟩
  exact h.2 ([⟨"a", d0⟩], 0) (by decide) ⟨"a", d0⟩ (by decide) (by decide)

/-- C3 counterexample: with a batch that repeats one foreign id under two
different data values, the second identical run rewrites the record (its
updated-at timestamp moves to the second run's time), so the final store is
not identical to the store after the first run. -/
theorem importAll_twice_counterexample :
    ¬ ((importAll (importAll Store.empty [⟨"a", d0⟩, ⟨"a", d1⟩] 0).1
          [⟨"a", d0⟩, ⟨"a", d1⟩] 1).1 =
        (importAll Store.empty [⟨"a", d0⟩, ⟨"a", d1⟩] 0).1) := by
  decide

/-- C3 amended: for every candidate batch, the second run of the unchanged
batch inserts nothing; and when the store is well-formed and no foreign id
recurs in the batch with different data (in particular for any batch without
duplicate foreign ids), the second run also leaves the store identical to the
state after the first run. -/
theorem importAll_idempotent (s : Store) (cs : List Candidate)
    (now₁ now₂ : Nat) :
    (importAll (importAll s cs now₁).1 cs now₂).2.inserted = 0 ∧
    (WellFormed s →
      (∀ c ∈ cs, ∀ c' ∈ cs, c.foreignId = c'.foreignId → c.data = c'.data) →
      (importAll (importAll s cs now₁).1 cs now₂).1 =
        (importAll s cs now₁).1) := by
  constructor
  · show (importList now₂ (importAll s cs now₁).1 emptySummary cs).2.inserted = 0
    apply inserted_importList
    intro c hc hne
    exact isSome_lookupData_of_mem now₁ cs c hc hne s emptySummary
  · intro hwf hcons
    have hwf₁ : WellFormed (importAll s cs now₁).1 :=
      wellFormed_importList now₁ cs s emptySummary hwf
    show (importList now₂ (importAll s cs now₁).1 emptySummary cs).1 =
      (importAll s cs now₁).1
    apply importList_noop now₂ cs emptySummary _ hwf₁
    intro c hc hne
    have hchar := lookupData_importList now₁ cs c.foreignId hne s emptySummary
    have hlast : lastData cs c.foreignId = some c.data := by
      rcases hA : (cs.filter (fun x => x.foreignId == c.foreignId)).getLast?
        with _ | x
      · exfalso
        have hmem : c ∈ cs.filter (fun x => x.foreignId == c.foreignId) :=
          List.mem_filter.mpr ⟨hc, by simp⟩
        rw [List.getLast?_eq_none_iff] at hA
        rw [hA] at hmem
        cases hmem
      · have hx : x ∈ cs.filter (fun y => y.foreignId == c.foreignId) :=
          mem_of_getLast?_eq_some hA
        have hx1 : x ∈ cs := (List.mem_filter.mp hx).1
        have hx2 : x.foreignId = c.foreignId := by
          simpa using (List.mem_filter.mp hx).2
        have hdx : x.data = c.data := hcons x hx1 c hc hx2
        unfold lastData
        rw [hA]
        simp [hdx]
    show lookupData (importList now₁ s emptySummary cs).1 c.foreignId =
      some c.data
    rw [hchar, hlast]
    rfl

/-- C3 amended witness: re-importing one unchanged candidate inserts nothing
and is a store no-op. -/
theorem importAll_idempotent_witness :
    (importAll (importAll Store.empty [⟨"a", d0⟩] 0).1
      [⟨"a", d0⟩] 1).2.inserted = 0 ∧
    (importAll (importAll Store.empty [⟨"a", d0⟩] 0).1 [⟨"a", d0⟩] 1).1 =
      (importAll Store.empty [⟨"a", d0⟩] 0).1 := by
  have h := importAll_idempotent Store.empty [⟨"a", d0⟩] 0 1
  exact ⟨h.1, h.2 ⟨by decide, by decide⟩ (by decide)⟩

/-- C4 counterexample: under the strict-comparison policy a genuine no-op
re-import is counted neither in `inserted`, `updated` nor `failed`, so a
second run over one unchanged candidate has `seen = 1` but
`inserted + updated + failed = 0`. -/
theorem summary_equation_counterexample :
    ¬ ((importAll (importAll Store.empty [⟨"a", d0⟩] 0).1 [⟨"a", d0⟩] 1).2.seen =
        (importAll (importAll Store.empty [⟨"a", d0⟩] 0).1
            [⟨"a", d0⟩] 1).2.inserted +
          (importAll (importAll Store.empty [⟨"a", d0⟩] 0).1
            [⟨"a", d0⟩] 1).2.updated +
          (importAll (importAll Store.empty [⟨"a", d0⟩] 0).1
            [⟨"a", d0⟩] 1).2.failed) := by
  decide

/-- C4 amended: the summary satisfies
`seen = inserted + updated + unchanged + failed` (genuine no-ops are counted
separately, not folded into `updated`); the Import response is exactly
`{count, added, updated}` with `count = seen` and `added = inserted`; and the
caller builds its import status from precisely those three response fields. -/
theorem summary_accounting :
    (∀ (s : Store) (cs : List Candidate) (now : Nat),
      (importAll s cs now).2.seen =
        (importAll s cs now).2.inserted + (importAll s cs now).2.updated +
          (importAll s cs now).2.unchanged + (importAll s cs now).2.failed) ∧
    (∀ (store : Store) (cands : List Candidate) (now : Nat),
      sysImport ⟨store, some cands⟩ now =
        (Except.ok ((importAll store cands now).2.seen,
            (importAll store cands now).2.inserted,
            (importAll store cands now).2.updated),
          ⟨(importAll store cands now).1, some cands⟩)) ∧
    (∀ resp : ImportResponse,
      applyImportResponse resp =
        ⟨false, true, resp.count, resp.added, resp.updated, none⟩) := by
  refine ⟨?_, ?_, ?_⟩
  · intro s cs now
    have h1 : (importList now s emptySummary cs).2.seen = 0 + cs.length :=
      seen_importList now cs s emptySummary
    have h2 : (importList now s emptySummary cs).2.inserted +
        (importList now s emptySummary cs).2.updated +
        (importList now s emptySummary cs).2.unchanged +
        (importList now s emptySummary cs).2.failed = 0 + 0 + 0 + 0 + cs.length :=
      counts_importList now cs s emptySummary
    show (importList now s emptySummary cs).2.seen =
      (importList now s emptySummary cs).2.inserted +
        (importList now s emptySummary cs).2.updated +
        (importList now s emptySummary cs).2.unchanged +
        (importList now s emptySummary cs).2.failed
    omega
  · intro store cands now
    rfl
  · intro resp
    rfl

/-- C5: whenever the Connect operation fails, the system state — the Library
Store and the current-connection state — is left untouched and a non-empty
human-readable error is returned to the caller; no Library Track Record is
created. -/
theorem connect_failure_preserves_state (env : SourceEnv) (st : SystemState)
    (path key e : String)
    (h : (sysConnect env st path key).1 = Except.error e) :
    (sysConnect env st path key).2 = st ∧ e ≠ "" := by
  unfold sysConnect at h ⊢
  rcases hb : backendConnect env path key with e' | cands
  · rw [hb] at h
    have h' : Except.error e' = Except.error e := h
    injection h' with he
    exact ⟨rfl, he ▸ backendConnect_error_ne env path key e' hb⟩
  · rw [hb] at h
    have h' : (Except.ok () : Except String Unit) = Except.error e := h
    cases h'

/-- C5 witness: the spec's scenario — a missing source at `/tmp/fake.db` with
the all-zero 64-character key fails and leaves the empty store and session
untouched. -/
theorem connect_failure_preserves_state_witness :
    (sysConnect env0 ⟨Store.empty, none⟩ "/tmp/fake.db" zeroKey).2 =
      ⟨Store.empty, none⟩ ∧
    "source unavailable: could not open the database" ≠ "" :=
  connect_failure_preserves_state env0 ⟨Store.empty, none⟩ "/tmp/fake.db"
    zeroKey "source unavailable: could not open the database" (by rfl)

set_option maxRecDepth 4000 in
/-- C6 counterexample: a 65-character all-hexadecimal credential does not
satisfy the 64-character encoding, yet `handleConnect` does not reject it —
it issues the request with the key truncated to its first 64 characters. -/
theorem handleConnect_long_key_counterexample :
    key65.length ≠ 64 ∧
    handleConnect "/tmp/fake.db" key65 =
      ConnectAction.send "/tmp/fake.db" zeroKey := by
  decide

/-- C6 amended: with a location given, a credential shorter than 64
characters, or one containing a non-hexadecimal character, is rejected with
the malformed-credential message and no request is issued; a credential of 64
or more characters, all hexadecimal, makes Connect proceed, sending the first
64 characters as the key. -/
theorem handleConnect_validation (path key : String) (hp : path ≠ "") :
    (key.length < 64 ∨ hexOk key = false →
      handleConnect path key =
        ConnectAction.reject
          "Invalid database key format. Key should be 64 hex characters.") ∧
    (64 ≤ key.length → hexOk key = true →
      handleConnect path key =
        ConnectAction.send path
          (if 64 < key.length then key.take 64 else key)) := by
  unfold handleConnect
  rw [if_neg hp]
  constructor
  · intro hbad
    rcases hbad with hlen | hhex
    · rw [if_pos (by omega)]
    · by_cases hlen : key.length < 64
      · rw [if_pos (by omega)]
      · rw [if_neg (by omega), if_pos (by simp [hhex])]
  · intro hlen hhex
    rw [if_neg (by omega), if_neg (by simp [hhex])]

set_option maxRecDepth 4000 in
/-- C6 amended witness: the 65-character all-zero credential instantiation. -/
theorem handleConnect_validation_witness :
    (key65.length < 64 ∨ hexOk key65 = false →
      handleConnect "/x" key65 =
        ConnectAction.reject
          "Invalid database key format. Key should be 64 hex characters.") ∧
    (64 ≤ key65.length → hexOk key65 = true →
      handleConnect "/x" key65 =
        ConnectAction.send "/x"
          (if 64 < key65.length then key65.take 64 else key65)) :=
  handleConnect_validation "/x" key65 (by decide)

/-- C7 counterexample: reordering even a duplicate-free batch does not
produce the same final set of Library Track Records, because the
locally-assigned identifiers follow insertion order — the two-candidate
batch, imported in the two different orders, yields record sets that are not
rearrangements of each other. -/
theorem importAll_order_counterexample :
    ¬ ((importAll Store.empty [⟨"a", d0⟩, ⟨"b", d0⟩] 0).1.records.Perm
        (importAll Store.empty [⟨"b", d0⟩, ⟨"a", d0⟩] 0).1.records) := by
  decide

/-- C7 amended: reordering a duplicate-free batch yields, for every non-empty
foreign-source identifier, the same stored data fields (the same tracks with
the same values; locally-assigned identifiers may be distributed
differently); and a foreign id duplicated within one batch deterministically
resolves to the last occurrence in input order. -/
theorem importAll_order_independence :
    (∀ (s : Store) (cs₁ cs₂ : List Candidate) (now : Nat) (f : String),
      cs₁.Perm cs₂ → (cs₁.map (fun c => c.foreignId)).Nodup → f ≠ "" →
      lookupData (importAll s cs₁ now).1 f =
        lookupData (importAll s cs₂ now).1 f) ∧
    (∀ (s : Store) (cs : List Candidate) (now : Nat) (c : Candidate),
      c.foreignId ≠ "" →
      (cs.filter (fun x => x.foreignId == c.foreignId)).getLast? = some c →
      lookupData (importAll s cs now).1 c.foreignId = some c.data) := by
  constructor
  · intro s cs₁ cs₂ now f hperm hnodup hf
    show lookupData (importList now s emptySummary cs₁).1 f =
      lookupData (importList now s emptySummary cs₂).1 f
    rw [lookupData_importList now cs₁ f hf s emptySummary,
      lookupData_importList now cs₂ f hf s emptySummary]
    have hfilter : cs₁.filter (fun x => x.foreignId == f) =
        cs₂.filter (fun x => x.foreignId == f) := by
      have hpf := hperm.filter (fun x => x.foreignId == f)
      have hlen1 : (cs₁.filter (fun x => x.foreignId == f)).length ≤ 1 := by
        have h := length_filter_key_le_one (fun c : Candidate => c.foreignId)
          cs₁ hnodup f
        exact h
      rcases hn : cs₁.filter (fun x => x.foreignId == f) with _ | ⟨a, l⟩
      · rw [hn] at hpf
        rw [hn, List.Perm.eq_nil hpf.symm]
      · rw [hn] at hpf hlen1
        have hl : l = [] := by
          rcases l with _ | ⟨b, l'⟩
          · rfl
          · simp at hlen1
        subst hl
        rw [hn, List.perm_singleton.mp hpf.symm]
    unfold lastData
    rw [hfilter]
  · intro s cs now c hf hlast
    show lookupData (importList now s emptySummary cs).1 c.foreignId =
      some c.data
    rw [lookupData_importList now cs c.foreignId hf s emptySummary]
    unfold lastData
    rw [hlast]
    rfl

/-- C7 amended witness: a swap of a duplicate-free two-candidate batch, and a
batch repeating one foreign id. -/
theorem importAll_order_independence_witness :
    lookupData (importAll Store.empty [⟨"a", d0⟩, ⟨"b", d1⟩] 0).1 "a" =
      lookupData (importAll Store.empty [⟨"b", d1⟩, ⟨"a", d0⟩] 0).1 "a" ∧
    lookupData (importAll Store.empty [⟨"a", d0⟩, ⟨"a", d1⟩] 0).1 "a" =
      some d1 := by
  constructor
  · exact importAll_order_independence.1 Store.empty [⟨"a", d0⟩, ⟨"b", d1⟩]
      [⟨"b", d1⟩, ⟨"a", d0⟩] 0 "a" (by decide) (by decide) (by decide)
  · exact importAll_order_independence.2 Store.empty [⟨"a", d0⟩, ⟨"a", d1⟩] 0
      ⟨"a", d1⟩ (by decide) (by decide)

/-- C8: over a well-formed store, every record present before a run is still
present after it with the same locally-assigned identifier, foreign-source
identifier and created-at timestamp (the import path never deletes and never
rewrites identifiers); its data fields are unchanged when the batch does not
mention its foreign id and are overwritten with the last matching candidate's
data when it does. -/
theorem importAll_never_deletes (s : Store) (cs : List Candidate) (now : Nat)
    (hwf : WellFormed s) (r : LibraryRecord) (hr : r ∈ s.records) :
    ∃ r' ∈ (importAll s cs now).1.records,
      r'.localId = r.localId ∧ r'.foreignId = r.foreignId ∧
      r'.createdAt = r.createdAt ∧
      ((cs.filter (fun x => x.foreignId == r.foreignId)).getLast? = none →
        r'.data = r.data) ∧
      (∀ c, (cs.filter (fun x => x.foreignId == r.foreignId)).getLast? =
          some c → r'.data = c.data) := by
  obtain ⟨r', hr', h1, h2, h3⟩ := keeps_importList now cs s emptySummary r hr
  have hfne : r.foreignId ≠ "" := hwf.1 r hr
  have hwf' : WellFormed (importList now s emptySummary cs).1 :=
    wellFormed_importList now cs s emptySummary hwf
  have hfind' : findByForeignId (importList now s emptySummary cs).1
      r'.foreignId = some r' := findByForeignId_of_mem_wf _ hwf' r' hr'
  have hlook : lookupData (importList now s emptySummary cs).1 r.foreignId =
      some r'.data := by
    unfold lookupData
    rw [← h2, hfind']
    rfl
  refine ⟨r', hr', h1, h2, h3, ?_, ?_⟩
  · intro hnone
    have hchar := lookupData_importList now cs r.foreignId hfne s emptySummary
    rw [hlook] at hchar
    have hlast : lastData cs r.foreignId = none := by
      unfold lastData
      rw [hnone]
      rfl
    have hs : lookupData s r.foreignId = some r.data := by
      unfold lookupData
      rw [findByForeignId_of_mem_wf s hwf r hr]
      rfl
    rw [hlast, hs] at hchar
    simpa using hchar
  · intro c hsome
    have hchar := lookupData_importList now cs r.foreignId hfne s emptySummary
    rw [hlook] at hchar
    have hlast : lastData cs r.foreignId = some c.data := by
      unfold lastData
      rw [hsome]
      rfl
    rw [hlast] at hchar
    simpa using hchar

/-- C8 witness: an existing record whose foreign id recurs in the batch keeps
its identifier and created-at, taking the candidate's data. -/
theorem importAll_never_deletes_witness :
    ∃ r' ∈ (importAll ⟨[⟨5, "a", d0, 3, 3⟩], 6⟩ [⟨"a", d1⟩] 9).1.records,
      r'.localId = 5 ∧ r'.foreignId = "a" ∧ r'.createdAt = 3 ∧
      ((([⟨"a", d1⟩] : List Candidate).filter
          (fun x => x.foreignId == "a")).getLast? = none → r'.data = d0) ∧
      (∀ c, (([⟨"a", d1⟩] : List Candidate).filter
          (fun x => x.foreignId == "a")).getLast? = some c →
        r'.data = c.data) :=
  importAll_never_deletes ⟨[⟨5, "a", d0, 3, 3⟩], 6⟩ [⟨"a", d1⟩] 9
    ⟨by decide, by decide⟩ ⟨5, "a", d0, 3, 3⟩ (by decide)

/-- C9: a credential longer than 64 characters, all of them hexadecimal, is
not rejected by `handleConnect`: the request is issued with exactly the first
64 characters of the credential as the key. -/
theorem handleConnect_truncates (path key : String) (hp : path ≠ "")
    (hlen : 64 < key.length) (hhex : key.toList.all isHexChar = true) :
    handleConnect path key = ConnectAction.send path (key.take 64) := by
  unfold handleConnect
  have hok : hexOk key = true := by
    have h0 : 0 < key.length := by omega
    unfold hexOk
    rw [hhex, Bool.and_true]
    simpa using h0
  rw [if_neg hp, if_neg (by omega), if_neg (by simp [hok]), if_pos hlen]

set_option maxRecDepth 4000 in
/-- C9 witness: the 65-character all-zero credential is sent truncated. -/
theorem handleConnect_truncates_witness :
    handleConnect "/x" key65 = ConnectAction.send "/x" (key65.take 64) :=
  handleConnect_truncates "/x" key65 (by decide) (by decide) (by decide)

/-- C10: along every valid event trace of the page, an import request
(`importClick`) can occur only in a state where `connected` is true and
no import is in progress, and `connected` can be true only after a successful
connect response has occurred earlier in the trace — Import is never issued
before Connect succeeds, and never while an import is running. -/
theorem import_requires_connection (evs₁ evs₂ : List UiEvent) (st : UiState)
    (h : uiRun uiInit (evs₁ ++ UiEvent.importClick :: evs₂) = some st) :
    ∃ st₁, uiRun uiInit evs₁ = some st₁ ∧ st₁.connected = true ∧
      st₁.importInProgress = false ∧
      UiEvent.connectResponse true ∈ evs₁ := by
  rw [uiRun_append] at h
  rcases h1 : uiRun uiInit evs₁ with _ | st₁
  · rw [h1] at h
    cases h
  · rw [h1] at h
    have h2 : uiRun st₁ (UiEvent.importClick :: evs₂) = some st := by
      simpa using h
    rw [uiRun_cons] at h2
    rcases hs : uiStep st₁ UiEvent.importClick with _ | st₂
    · rw [hs] at h2
      cases h2
    · have hg : (st₁.connected && !st₁.importInProgress) = true := by
        by_contra hng
        rw [show uiStep st₁ UiEvent.importClick =
            (if (st₁.connected && !st₁.importInProgress) = true then
              some { st₁ with importInProgress := true } else none) from rfl,
          if_neg hng] at hs
        cases hs
      have hgs : st₁.connected = true ∧ st₁.importInProgress = false := by
        have hg' := hg
        simp only [Bool.and_eq_true, Bool.not_eq_true'] at hg'
        exact hg'
      have hc : st₁.connected = true := hgs.1
      have hip : st₁.importInProgress = false := hgs.2
      have hmem : UiEvent.connectResponse true ∈ evs₁ := by
        rcases connected_of_uiRun evs₁ uiInit st₁ h1 hc with hinit | hm
        · simp [uiInit] at hinit
        · exact hm
      exact ⟨st₁, rfl, hc, hip, hmem⟩

/-- C10 witness: the trace connect-success then import-click. -/
theorem import_requires_connection_witness :
    ∃ st₁, uiRun uiInit [UiEvent.connectResponse true] = some st₁ ∧
      st₁.connected = true ∧ st₁.importInProgress = false ∧
      UiEvent.connectResponse true ∈ [UiEvent.connectResponse true] :=
  import_requires_connection [UiEvent.connectResponse true] []
    ⟨true, true, false, 1⟩ (by decide)

end TurntableIQ
